import Mathlib

/-!
Verification of the ABM reporter aggregation engine.

This file gives a shallow embedding of the aggregation, merge, cache and
query logic of `backend/app/services/aggregator.py` together with the
detail-by-name route of `backend/app/routers/accounts.py`, and proves the
specified properties about them.

Modelling conventions
- Python strings are `List Char`; `str.lower` is mapped `Char.toLower`
  (the repository's names and keys are ASCII).
- Python dicts (keyed by strings, insertion ordered) are association lists
  with in-place update (`mapSet`) and first-hit lookup (`mapGet`).
- Currency amounts (`pipeline_value`, `annual_revenue`), which the code
  holds in Python floats, are modelled as `Int`: the aggregation path only
  sums and compares them.
- Time (`datetime.utcnow()`) is an explicit `Int` parameter, in minutes,
  so the cache TTL `timedelta(minutes=5)` is the integer `5`.
- `async` fetches that may raise are modelled as `Except Unit` inputs to
  the aggregation step; the code's `try/except` wrappers and the
  `isinstance(..., Exception)` checks after `asyncio.gather` both replace
  a failure with the same documented empty defaults, modelled once.
- Fields of the pydantic models that the aggregation, filter and lookup
  paths never read or write past their defaults (`linkedin_engagement_rate`,
  `intent_topics`, `last_updated`, the timestamp fields of form
  submissions, etc.) are omitted from the embedded records.
-/

/-- Boolean test that the first list is a leading segment of the second
(character-wise `==`). -/
def isPre : List Char → List Char → Bool
  | [], _ => true
  | _ :: _, [] => false
  | a :: as, b :: bs => a == b && isPre as bs

/-- Python `s.replace(pat, '')`, scanning left to right without overlap.
The `Nat` argument counts characters still to be skipped because they were
part of the pattern occurrence that was just deleted. -/
def repAux (pat : List Char) : List Char → Nat → List Char
  | [], _ => []
  | _ :: rest, Nat.succ k => repAux pat rest k
  | c :: rest, 0 =>
    if isPre pat (c :: rest) && !pat.isEmpty then repAux pat rest (pat.length - 1)
    else c :: repAux pat rest 0

/-- Python `s.replace(pat, '')`. -/
def pyReplace (s pat : List Char) : List Char := repAux pat s 0

/-- Boolean test that `pat` occurs somewhere inside `s` as a contiguous
segment. -/
def occursB (pat : List Char) : List Char → Bool
  | [] => pat.isEmpty
  | c :: rest => isPre pat (c :: rest) || occursB pat rest

/-- Python `s.split('/')[0]`: the characters before the first `'/'`. -/
def beforeSlash (s : List Char) : List Char := s.takeWhile (fun c => c != '/')

/-- Python `s.lower()` (ASCII). -/
def lowerL (s : List Char) : List Char := s.map Char.toLower

/-- Python `email.split('@')[-1]`: the characters after the last `'@'`,
or the whole string when there is no `'@'`. -/
def afterLastAt (e : List Char) : List Char :=
  (e.reverse.takeWhile (fun c => c != '@')).reverse

def httpL : List Char := ['h', 't', 't', 'p', ':', '/', '/']

def httpsL : List Char := ['h', 't', 't', 'p', 's', ':', '/', '/']

def wwwL : List Char := ['w', 'w', 'w', '.']

/-- Domain extraction exactly as `_merge_account_data` performs it:
`website.replace('http://', '').replace('https://', '').replace('www.', '').split('/')[0]`.
Note that Python `str.replace` deletes every occurrence, not only a
leading one. -/
def extractDomain (website : List Char) : List Char :=
  beforeSlash (pyReplace (pyReplace (pyReplace website httpL) httpsL) wwwL)

/-- Delete `pat` from the front of `s` when it is a leading segment,
otherwise leave `s` unchanged. -/
def stripPre (pat s : List Char) : List Char :=
  if isPre pat s then s.drop pat.length else s

/-- Domain extraction as the specification words it: strip the leading
`http://`, `https://` and `www.` one after the other, then take the
characters before the first `'/'`. Stated for comparison with
`extractDomain`, which is what the code computes. -/
def extractDomainSpec (website : List Char) : List Char :=
  beforeSlash (stripPre wwwL (stripPre httpsL (stripPre httpL website)))

/-- Lookup in a string-keyed association list modelling a Python dict. -/
def mapGet {β : Type} (m : List (List Char × β)) (k : List Char) : Option β :=
  (m.find? (fun kv => kv.1 == k)).map (fun kv => kv.2)

/-- Python `d[k] = v` on an insertion-ordered dict: replace in place when
the key exists, append otherwise. -/
def mapSet {β : Type} (m : List (List Char × β)) (k : List Char) (v : β) :
    List (List Char × β) :=
  match m with
  | [] => [(k, v)]
  | kv :: rest => if kv.1 == k then (k, v) :: rest else kv :: mapSet rest k v

/-- Python `d.get(k, 0)` for an optional key (`d.get(None, 0)` is `0`). -/
def mapGetD {β : Type} (m : List (List Char × β)) (k : Option (List Char)) (d : β) : β :=
  match k with
  | none => d
  | some key => (mapGet m key).getD d

/-- One Salesforce account row as `_merge_account_data` reads it
(`Id`, `Name`, `Website`, `Industry`, `NumberOfEmployees`, `AnnualRevenue`;
a missing `Website` behaves as the empty string). -/
structure SfdcAccount where
  id : Option (List Char)
  name : Option (List Char)
  website : List Char
  industry : Option (List Char)
  numberOfEmployees : Option Int
  annualRevenue : Option Int
deriving DecidableEq

/-- Per-account opportunity summary (`open_opps`, `closed_won`,
`closed_lost`, `pipeline_value`), with the code's `.get(_, 0)` defaults
already folded in. -/
structure OppData where
  open_opps : Int
  closed_won : Int
  closed_lost : Int
  pipeline_value : Int
deriving DecidableEq

/-- Result of `_fetch_salesforce_data`. -/
structure SfdcData where
  accounts : List SfdcAccount
  contact_counts : List (List Char × Int)
  opportunity_summary : List (List Char × OppData)
deriving DecidableEq

/-- One HubSpot company as `_merge_account_data` reads it: the `id` plus
the `name`, `domain`, `industry`, `numberofemployees`, `annualrevenue`
properties (the numeric properties already coerced, as by
`int(... or 0)` / `float(... or 0)`). -/
structure HsCompany where
  id : Option (List Char)
  name : Option (List Char)
  domain : List Char
  industry : Option (List Char)
  numberofemployees : Int
  annualrevenue : Int
deriving DecidableEq

/-- A HubSpot form submission; only `contact_email` is read by the merge. -/
structure FormSubmission where
  contact_email : Option (List Char)
deriving DecidableEq

/-- Result of `_fetch_hubspot_data`; `forms` is fetched but never read by
the merge. -/
structure HubspotData where
  companies : List HsCompany
  contact_counts : List (List Char × Int)
  forms : List (List Char)
  form_submissions : List FormSubmission
deriving DecidableEq

/-- Result of `_fetch_linkedin_data`: the `impressionCount` of each
element of `organic_stats['elements']` and the `impressions` of each ad
analytics element, the only numbers the merge reads. -/
structure LinkedinData where
  organic_elements : List Int
  ad_analytics : List Int
deriving DecidableEq

/-- Website metrics per domain from Factors.ai. -/
structure WebsiteMetrics where
  sessions : Int
  page_views : Int
deriving DecidableEq

/-- Result of `_fetch_factors_data`; `identified_accounts` is fetched but
never read by the merge. -/
structure FactorsData where
  identified_accounts : List (List Char)
  sessions : List (List Char × WebsiteMetrics)
deriving DecidableEq

/-- The canonical account record (`AccountEngagement` in
`models/account.py`), restricted to the fields the aggregation, filter
and lookup paths touch. -/
structure AccountEngagement where
  account_name : List Char
  domains : List (List Char)
  sfdc_contacts : Int
  hubspot_contacts : Int
  total_contacts : Int
  linkedin_organic_impressions : Int
  linkedin_ad_impressions : Int
  linkedin_total_impressions : Int
  website_sessions : Int
  website_page_views : Int
  form_submissions : Int
  current_opportunities : Int
  closed_won : Int
  closed_lost : Int
  open_opportunities : Int
  pipeline_value : Int
  industry : Option (List Char)
  employee_count : Option Int
  annual_revenue : Option Int
  intent_score : Option Int
deriving DecidableEq

/-- `AccountList` of `models/account.py`. -/
structure AccountList where
  accounts : List AccountEngagement
  total_count : Nat
  last_synced : Option Int
deriving DecidableEq

/-- `AccountFilter` of `models/account.py`. `page` and `page_size` are
kept as `Nat`: the route declares `page ≥ 1` and `1 ≤ page_size ≤ 100`.
-/
structure AccountFilter where
  min_pipeline : Option Int
  max_pipeline : Option Int
  min_contacts : Option Int
  has_open_opportunities : Option Bool
  industries : Option (List (List Char))
  min_intent_score : Option Int
  search_query : Option (List Char)
  sort_by : List Char
  sort_order : List Char
  page : Nat
  page_size : Nat
deriving DecidableEq

/-- The default display name `'Unknown'` used by both merge passes when a
provider record has no name. -/
def unknownL : List Char := ['U', 'n', 'k', 'n', 'o', 'w', 'n']

/-- The account record seeded for one Salesforce account
(`_merge_account_data`, first pass). -/
def seedRecord (sd : SfdcData) (a : SfdcAccount) : AccountEngagement :=
  let sfdc_contacts := mapGetD sd.contact_counts a.id 0
  let opp := mapGetD sd.opportunity_summary a.id ⟨0, 0, 0, 0⟩
  { account_name := a.name.getD unknownL
    domains := if a.website.isEmpty then [] else [extractDomain a.website]
    sfdc_contacts := sfdc_contacts
    hubspot_contacts := 0
    total_contacts := sfdc_contacts
    linkedin_organic_impressions := 0
    linkedin_ad_impressions := 0
    linkedin_total_impressions := 0
    website_sessions := 0
    website_page_views := 0
    form_submissions := 0
    current_opportunities := opp.open_opps + opp.closed_won + opp.closed_lost
    closed_won := opp.closed_won
    closed_lost := opp.closed_lost
    open_opportunities := opp.open_opps
    pipeline_value := opp.pipeline_value
    industry := a.industry
    employee_count := a.numberOfEmployees
    annual_revenue := a.annualRevenue
    intent_score := none }

/-- First pass of `_merge_account_data`: seed the canonical map from the
Salesforce accounts, keyed by lowercased name. -/
def sfdcSeed (sd : SfdcData) : List (List Char × AccountEngagement) :=
  sd.accounts.foldl
    (fun m a => mapSet m (lowerL (a.name.getD unknownL)) (seedRecord sd a)) []

/-- The fresh record created for a HubSpot company whose key is not yet in
the canonical map (`_merge_account_data`, second pass, `else` branch). -/
def newHsAccount (c : HsCompany) : AccountEngagement :=
  { account_name := c.name.getD unknownL
    domains := if c.domain.isEmpty then [] else [c.domain]
    sfdc_contacts := 0
    hubspot_contacts := 0
    total_contacts := 0
    linkedin_organic_impressions := 0
    linkedin_ad_impressions := 0
    linkedin_total_impressions := 0
    website_sessions := 0
    website_page_views := 0
    form_submissions := 0
    current_opportunities := 0
    closed_won := 0
    closed_lost := 0
    open_opportunities := 0
    pipeline_value := 0
    industry := c.industry
    employee_count := some c.numberofemployees
    annual_revenue := some c.annualrevenue
    intent_score := none }

/-- The `if key in accounts_map / else` block of the second pass: union
in a new non-empty domain on an existing record, or create the record. -/
def hsDomainsUpd (m : List (List Char × AccountEngagement)) (key : List Char)
    (c : HsCompany) : List (List Char × AccountEngagement) :=
  match mapGet m key with
  | some acc =>
      if !c.domain.isEmpty && !acc.domains.contains c.domain then
        mapSet m key { acc with domains := acc.domains ++ [c.domain] }
      else m
  | none => mapSet m key (newHsAccount c)

/-- The unconditional tail of the second pass: set the HubSpot contact
count and recompute `total_contacts` from the record's own
`sfdc_contacts`. -/
def hsContactsUpd (m1 : List (List Char × AccountEngagement)) (key : List Char)
    (hs : Int) : List (List Char × AccountEngagement) :=
  match mapGet m1 key with
  | some acc =>
      mapSet m1 key { acc with hubspot_contacts := hs,
                               total_contacts := acc.sfdc_contacts + hs }
  | none => m1

/-- Second pass of `_merge_account_data`: fold one HubSpot company into
the canonical map — union in a new domain or create the record, then set
the HubSpot contact count and recompute the total. -/
def hsStep (hd : HubspotData) (m : List (List Char × AccountEngagement))
    (c : HsCompany) : List (List Char × AccountEngagement) :=
  let key := lowerL (c.name.getD unknownL)
  hsContactsUpd (hsDomainsUpd m key c) key (mapGetD hd.contact_counts c.id 0)

/-- Second pass of `_merge_account_data` over all HubSpot companies. -/
def hubspotFold (hd : HubspotData) (m : List (List Char × AccountEngagement)) :
    List (List Char × AccountEngagement) :=
  hd.companies.foldl (hsStep hd) m

/-- Bucket HubSpot form submissions by the email domain of the contact
(`submissions_by_domain` in `_merge_account_data`). -/
def submissionsByDomain (subs : List FormSubmission) : List (List Char × Int) :=
  subs.foldl
    (fun b sub =>
      match sub.contact_email with
      | some e => if e.isEmpty then b else
          mapSet b (afterLastAt e) ((mapGet b (afterLastAt e)).getD 0 + 1)
      | none => b) []

/-- Rewrite every value of the canonical map in place, as the later passes
of `_merge_account_data` do while iterating `accounts_map.items()`. -/
def mapValues (g : AccountEngagement → AccountEngagement)
    (m : List (List Char × AccountEngagement)) :
    List (List Char × AccountEngagement) :=
  m.map (fun kv => (kv.1, g kv.2))

/-- Third pass: add the bucketed submission counts of every domain the
account owns onto `form_submissions`. -/
def applySubs (b : List (List Char × Int)) (acc : AccountEngagement) :
    AccountEngagement :=
  { acc with
      form_submissions := acc.domains.foldl
        (fun s d => match mapGet b d with
          | some n => s + n
          | none => s) acc.form_submissions }

/-- Fourth pass: copy the session metrics of the first owned domain that
appears in the Factors.ai session map, if any. -/
def applySessions (sm : List (List Char × WebsiteMetrics)) (acc : AccountEngagement) :
    AccountEngagement :=
  match acc.domains.findSome? (fun d => mapGet sm d) with
  | some met =>
      { acc with website_sessions := met.sessions, website_page_views := met.page_views }
  | none => acc

/-- Fifth pass: the code sums the LinkedIn data into org-wide totals that
it then never stores on any account, and recomputes every account's
`linkedin_total_impressions` from its own (still zero) organic and ad
fields. -/
def linkedinFold (ld : LinkedinData) (m : List (List Char × AccountEngagement)) :
    List (List Char × AccountEngagement) :=
  let _total_organic_impressions := ld.organic_elements.foldl (· + ·) 0
  let _total_ad_impressions := ld.ad_analytics.foldl (· + ·) 0
  mapValues
    (fun acc => { acc with linkedin_total_impressions :=
        acc.linkedin_organic_impressions + acc.linkedin_ad_impressions }) m

/-- `_merge_account_data`: the five passes in their fixed order, then
`list(accounts_map.values())`. -/
def mergeAccountData (sd : SfdcData) (hd : HubspotData) (ld : LinkedinData)
    (fd : FactorsData) : List AccountEngagement :=
  (linkedinFold ld
    (mapValues (applySessions fd.sessions)
      (mapValues (applySubs (submissionsByDomain hd.form_submissions))
        (hubspotFold hd (sfdcSeed sd))))).map (fun kv => kv.2)


/-- Filter predicate for `min_pipeline` (`a.pipeline_value >= m`). -/
def minPipelineP (m : Int) (a : AccountEngagement) : Bool :=
  decide (m ≤ a.pipeline_value)

/-- Filter predicate for `max_pipeline` (`a.pipeline_value <= m`). -/
def maxPipelineP (m : Int) (a : AccountEngagement) : Bool :=
  decide (a.pipeline_value ≤ m)

/-- Filter predicate for `min_contacts` (`a.total_contacts >= m`). -/
def minContactsP (m : Int) (a : AccountEngagement) : Bool :=
  decide (m ≤ a.total_contacts)

/-- Filter predicate for `has_open_opportunities` (`> 0` when requested
true, `== 0` when requested false). -/
def openOppsP (want : Bool) (a : AccountEngagement) : Bool :=
  if want then decide (0 < a.open_opportunities)
  else decide (a.open_opportunities = 0)

/-- Filter predicate for `industries` (`a.industry in filters.industries`;
a `None` industry is in no list of industry names). -/
def industriesP (inds : List (List Char)) (a : AccountEngagement) : Bool :=
  match a.industry with
  | some i => inds.contains i
  | none => false

/-- Filter predicate for `min_intent_score` (`(a.intent_score or 0) >= m`). -/
def minIntentP (m : Int) (a : AccountEngagement) : Bool :=
  decide (m ≤ a.intent_score.getD 0)

/-- Filter predicate for `search_query`: the lowercased query is a
substring of the lowercased account name or of some owned domain. -/
def searchP (ql : List Char) (a : AccountEngagement) : Bool :=
  occursB ql (lowerL a.account_name) || a.domains.any (fun d => occursB ql (lowerL d))

/-- The filtering stage of `filter_accounts`: each filter is applied only
when supplied (Python truthiness: an empty `industries` list or an empty
`search_query` string applies no filter). -/
def filterPass (filters : AccountFilter) (accounts : List AccountEngagement) :
    List AccountEngagement :=
  let f1 := match filters.min_pipeline with
    | some m => accounts.filter (minPipelineP m)
    | none => accounts
  let f2 := match filters.max_pipeline with
    | some m => f1.filter (maxPipelineP m)
    | none => f1
  let f3 := match filters.min_contacts with
    | some m => f2.filter (minContactsP m)
    | none => f2
  let f4 := match filters.has_open_opportunities with
    | some want => f3.filter (openOppsP want)
    | none => f3
  let f5 := match filters.industries with
    | some inds => if inds.isEmpty then f4 else f4.filter (industriesP inds)
    | none => f4
  let f6 := match filters.min_intent_score with
    | some m => f5.filter (minIntentP m)
    | none => f5
  match filters.search_query with
  | some q => if q.isEmpty then f6 else f6.filter (searchP (lowerL q))
  | none => f6

def pvKey : List Char := "pipeline_value".toList

def tcKey : List Char := "total_contacts".toList

def wsKey : List Char := "website_sessions".toList

def fsKey : List Char := "form_submissions".toList

def anKey : List Char := "account_name".toList

def liKey : List Char := "linkedin_total_impressions".toList

def descKey : List Char := "desc".toList

/-- The comparator corresponding to the `sort_key` dictionary of
`filter_accounts`: compare the field selected by `sort_by`, the account
name lowercased, with `.get(filters.sort_by, pipeline_value key)` falling
back to `pipeline_value` for unknown names. `sortLe sb a b` says the key
of `a` is at most the key of `b`. -/
def sortLe (sb : List Char) (a b : AccountEngagement) : Bool :=
  if sb = pvKey then decide (a.pipeline_value ≤ b.pipeline_value)
  else if sb = tcKey then decide (a.total_contacts ≤ b.total_contacts)
  else if sb = wsKey then decide (a.website_sessions ≤ b.website_sessions)
  else if sb = fsKey then decide (a.form_submissions ≤ b.form_submissions)
  else if sb = anKey then decide (lowerL a.account_name ≤ lowerL b.account_name)
  else if sb = liKey then
    decide (a.linkedin_total_impressions ≤ b.linkedin_total_impressions)
  else decide (a.pipeline_value ≤ b.pipeline_value)

/-- Stable insertion of `x` into a sorted accumulator: `x` goes after
every element that may come before it, so elements with equal keys keep
their first-come order. -/
def insertS {α : Type} (le : α → α → Bool) (x : α) : List α → List α
  | [] => [x]
  | y :: ys => if le y x then y :: insertS le x ys else x :: y :: ys

/-- Python `sorted(l, key=..., reverse=...)` for the comparator `le`:
a stable sort. Python's Timsort is stable, and a stable sort's output is
uniquely determined by the comparator and the input order, so stable
insertion sort computes the same list. -/
def pySorted {α : Type} (le : α → α → Bool) (l : List α) : List α :=
  l.foldl (fun acc x => insertS le x acc) []

/-- The sorting stage of `filter_accounts`:
`sorted(filtered, key=sort_key, reverse=(sort_order == 'desc'))`.
Python's `reverse=True` is the stable sort by the reversed comparator. -/
def sortPass (filters : AccountFilter) (l : List AccountEngagement) :
    List AccountEngagement :=
  pySorted
    (if filters.sort_order = descKey then fun a b => sortLe filters.sort_by b a
     else sortLe filters.sort_by) l

/-- Python `l[a:b]` for `0 ≤ a` and `0 ≤ b`: the elements with index
`a ≤ i < b`, silently clamped to the list. -/
def pySlice {α : Type} (l : List α) (a b : Nat) : List α := (l.take b).drop a

/-- `filter_accounts`: filter, sort, then paginate with
`start = (page - 1) * page_size`, `end = start + page_size`. -/
def filter_accounts (accounts : List AccountEngagement) (filters : AccountFilter) :
    List AccountEngagement :=
  let sorted := sortPass filters (filterPass filters accounts)
  pySlice sorted ((filters.page - 1) * filters.page_size)
    ((filters.page - 1) * filters.page_size + filters.page_size)

/-- The documented empty default for a failed Salesforce fetch
(`{'accounts': [], 'contact_counts': {}, 'opportunity_summary': {}}`). -/
def emptySfdcData : SfdcData := ⟨[], [], []⟩

/-- The documented empty default for a failed HubSpot fetch
(`{'companies': [], 'contact_counts': {}, 'forms': [], 'form_submissions': []}`). -/
def emptyHubspotData : HubspotData := ⟨[], [], [], []⟩

/-- The documented empty default for a failed LinkedIn fetch
(`{'organic_stats': {}, 'ad_analytics': []}`: an empty `organic_stats`
dict has no `elements`). -/
def emptyLinkedinData : LinkedinData := ⟨[], []⟩

/-- The documented empty default for a failed Factors.ai fetch
(`{'identified_accounts': [], 'sessions': {}}`). -/
def emptyFactorsData : FactorsData := ⟨[], []⟩

/-- Boundary wrapper for the Salesforce fetch: a raised exception
degrades to the documented empty default (`_fetch_salesforce_data`'s
`except` clause, and identically the `isinstance(sfdc_data, Exception)`
check after `asyncio.gather`). -/
def sfdcOrDefault : Except Unit SfdcData → SfdcData
  | Except.ok d => d
  | Except.error _ => emptySfdcData

/-- Boundary wrapper for the HubSpot fetch. -/
def hubspotOrDefault : Except Unit HubspotData → HubspotData
  | Except.ok d => d
  | Except.error _ => emptyHubspotData

/-- Boundary wrapper for the LinkedIn fetch. -/
def linkedinOrDefault : Except Unit LinkedinData → LinkedinData
  | Except.ok d => d
  | Except.error _ => emptyLinkedinData

/-- Boundary wrapper for the Factors.ai fetch. -/
def factorsOrDefault : Except Unit FactorsData → FactorsData
  | Except.ok d => d
  | Except.error _ => emptyFactorsData

/-- The fetch-and-merge path of `aggregate_account_data`: apply the
provider-boundary defaults to the four (possibly failed) fetch results,
merge, and build the `AccountList`. Always returns a list; a provider
failure never propagates. -/
def aggregateCompute (now : Int) (s : Except Unit SfdcData)
    (h : Except Unit HubspotData) (l : Except Unit LinkedinData)
    (f : Except Unit FactorsData) : AccountList :=
  let accounts := mergeAccountData (sfdcOrDefault s) (hubspotOrDefault h)
    (linkedinOrDefault l) (factorsOrDefault f)
  { accounts := accounts, total_count := accounts.length, last_synced := some now }

/-- The aggregator's mutable cache state: `self._cache['aggregated']`,
`self._cache_timestamp` and `self._cache_ttl`. -/
structure AggState where
  cache : Option AccountList
  cache_timestamp : Option Int
  cache_ttl : Int
deriving DecidableEq

/-- The state built by `ABMDataAggregator.__init__`: empty cache, no
timestamp, TTL `timedelta(minutes=5)` (time is counted in minutes). -/
def initAggState : AggState :=
  { cache := none, cache_timestamp := none, cache_ttl := 5 }

/-- `_is_cache_valid`: false without a timestamp, otherwise
`now - cached_at < ttl`. -/
def isCacheValid (st : AggState) (now : Int) : Bool :=
  match st.cache_timestamp with
  | none => false
  | some t => decide (now - t < st.cache_ttl)

/-- One call of `aggregate_account_data`: return the cached list when
`force_refresh` is unset, the cache is valid and an entry exists;
otherwise fetch-and-merge and overwrite the cache. The `Bool` component
records whether the provider fan-out ran. -/
def aggregateStep (st : AggState) (force_refresh : Bool) (now : Int)
    (s : Except Unit SfdcData) (h : Except Unit HubspotData)
    (l : Except Unit LinkedinData) (f : Except Unit FactorsData) :
    AccountList × AggState × Bool :=
  match st.cache, !force_refresh && isCacheValid st now with
  | some cached, true => (cached, st, false)
  | _, _ =>
      let result := aggregateCompute now s h l f
      (result, { st with cache := some result, cache_timestamp := some now }, true)

/-- `invalidate_cache`: clear the entry and the timestamp. -/
def invalidateCache (st : AggState) : AggState :=
  { st with cache := none, cache_timestamp := none }

/-- The `GET /accounts/{account_name}` route (`get_account_detail`):
aggregate (no force refresh), return the first account whose lowercased
name equals the lowercased requested name, or an HTTP 404. -/
def getAccountDetail (st : AggState) (now : Int) (s : Except Unit SfdcData)
    (h : Except Unit HubspotData) (l : Except Unit LinkedinData)
    (f : Except Unit FactorsData) (name : List Char) :
    Except Nat AccountEngagement × AggState :=
  let r := aggregateStep st false now s h l f
  match r.1.accounts.find? (fun a => lowerL a.account_name == lowerL name) with
  | some a => (Except.ok a, r.2.1)
  | none => (Except.error 404, r.2.1)

/-- The well-formed shape the specification's wording presupposes: the
website is one of the stripped URL shapes, and none of the three deleted
substrings occurs in the remainder. -/
def WellFormedSite (w : List Char) : Prop :=
  ∃ r, (w = r ∨ w = httpL ++ r ∨ w = httpsL ++ r ∨ w = wwwL ++ r
        ∨ w = httpL ++ (wwwL ++ r) ∨ w = httpsL ++ (wwwL ++ r))
    ∧ occursB httpL r = false ∧ occursB httpsL r = false ∧ occursB wwwL r = false

/-- The contact-count invariant of the specification:
`total_contacts == sfdc_contacts + hubspot_contacts`. -/
def contactsTotalInv (a : AccountEngagement) : Prop :=
  a.total_contacts = a.sfdc_contacts + a.hubspot_contacts

/-- The derived-field invariant on opportunity counts:
`current_opportunities == open_opportunities + closed_won + closed_lost`. -/
def currentOppsInv (a : AccountEngagement) : Prop :=
  a.current_opportunities = a.open_opportunities + a.closed_won + a.closed_lost

/-- An all-default account record, used as the `headD` fallback when
evaluating concrete runs. -/
def acc0 : AccountEngagement :=
  { account_name := [], domains := [], sfdc_contacts := 0, hubspot_contacts := 0,
    total_contacts := 0, linkedin_organic_impressions := 0,
    linkedin_ad_impressions := 0, linkedin_total_impressions := 0,
    website_sessions := 0, website_page_views := 0, form_submissions := 0,
    current_opportunities := 0, closed_won := 0, closed_lost := 0,
    open_opportunities := 0, pipeline_value := 0, industry := none,
    employee_count := none, annual_revenue := none, intent_score := none }

/-- Sample Salesforce dataset: one account `Acme` with two open and two
closed opportunities and three CRM contacts. -/
def sd1 : SfdcData :=
  { accounts := [{ id := some ['i', '1'], name := some ['A', 'c', 'm', 'e'],
                   website := "https://www.acme.com/home".toList,
                   industry := some "Tech".toList, numberOfEmployees := some 40,
                   annualRevenue := some 900 }],
    contact_counts := [(['i', '1'], 3)],
    opportunity_summary := [(['i', '1'], ⟨2, 1, 1, 50⟩)] }

/-- Sample HubSpot dataset: the same company under the same name with a
second domain, four contacts and one form submission from `acme.com`. -/
def hs1 : HubspotData :=
  { companies := [{ id := some ['h', '1'], name := some ['A', 'c', 'm', 'e'],
                    domain := "acme.io".toList, industry := none,
                    numberofemployees := 5, annualrevenue := 7 }],
    contact_counts := [(['h', '1'], 4)],
    forms := [],
    form_submissions := [{ contact_email := some "jane@acme.com".toList }] }

/-- Sample LinkedIn dataset with non-zero org-level impressions. -/
def ld1 : LinkedinData := { organic_elements := [10], ad_analytics := [5] }

/-- Sample Factors.ai dataset with sessions for `acme.com`. -/
def fd1 : FactorsData :=
  { identified_accounts := [], sessions := [("acme.com".toList, ⟨8, 20⟩)] }

/-- A website string on which global deletion and leading-segment
stripping disagree: `'awww.b/c'`. -/
def siteCx : List Char := "awww.b/c".toList

/-- A one-account Salesforce dataset carrying `siteCx` as website. -/
def sdCx : SfdcData :=
  { accounts := [{ id := none, name := some ['X'], website := siteCx,
                   industry := none, numberOfEmployees := none, annualRevenue := none }],
    contact_counts := [], opportunity_summary := [] }

/-- A well-formed website string `'https://www.acme.com/home'`. -/
def siteW : List Char := httpsL ++ (wwwL ++ "acme.com/home".toList)

/-- A Salesforce account row carrying `siteW` as website. -/
def acW : SfdcAccount :=
  { id := none, name := some ['W'], website := siteW, industry := none,
    numberOfEmployees := none, annualRevenue := none }

/-- A one-account Salesforce dataset around `acW`. -/
def sdW : SfdcData := { accounts := [acW], contact_counts := [], opportunity_summary := [] }

/-- A sample filter specification: no filters, default sort, second page
of size 10. -/
def fW : AccountFilter :=
  { min_pipeline := none, max_pipeline := none, min_contacts := none,
    has_open_opportunities := none, industries := none, min_intent_score := none,
    search_query := none, sort_by := pvKey, sort_order := descKey,
    page := 2, page_size := 10 }

/-- The sample filter with a sort key outside the known set. -/
def fA : AccountFilter := { fW with sort_by := "bogus".toList, page := 1 }

/-- A pointwise property of the values survives a dict update with a
value that satisfies it. -/
theorem mapSet_forall {β : Type} (P : β → Prop) :
    ∀ (m : List (List Char × β)) (k : List Char) (v : β),
      (∀ kv ∈ m, P kv.2) → P v → ∀ kv ∈ mapSet m k v, P kv.2 := by
  intro m
  induction m with
  | nil =>
    intro k v _ hv kv hkv
    simp only [mapSet, List.mem_singleton] at hkv
    rw [hkv]
    exact hv
  | cons hd tl ih =>
    intro k v hm hv kv hkv
    simp only [mapSet] at hkv
    by_cases h : (hd.1 == k) = true
    · rw [if_pos h] at hkv
      rcases List.mem_cons.mp hkv with h1 | h1
      · rw [h1]; exact hv
      · exact hm kv (List.mem_cons_of_mem _ h1)
    · rw [if_neg h] at hkv
      rcases List.mem_cons.mp hkv with h1 | h1
      · rw [h1]; exact hm hd (List.mem_cons_self _ _)
      · exact ih k v (fun x hx => hm x (List.mem_cons_of_mem _ hx)) hv kv h1

/-- A successful dict lookup returns a value from the dict. -/
theorem mapGet_forall {β : Type} (P : β → Prop) {m : List (List Char × β)}
    (hm : ∀ kv ∈ m, P kv.2) {k : List Char} {v : β}
    (hv : mapGet m k = some v) : P v := by
  unfold mapGet at hv
  cases hfind : m.find? (fun kv => kv.1 == k) with
  | none =>
    rw [hfind] at hv
    exact Option.noConfusion hv
  | some kv =>
    rw [hfind] at hv
    exact Option.some.inj hv ▸ hm kv (List.mem_of_find?_eq_some hfind)

/-- Every record placed by the Salesforce seeding pass is a
`seedRecord`, so a property of all `seedRecord`s holds across the seeded
map. -/
theorem seedFold_forall (P : AccountEngagement → Prop) (sd : SfdcData)
    (hseed : ∀ a, P (seedRecord sd a)) :
    ∀ (l : List SfdcAccount) (m : List (List Char × AccountEngagement)),
      (∀ kv ∈ m, P kv.2) →
      ∀ kv ∈ l.foldl
        (fun m a => mapSet m (lowerL (a.name.getD unknownL)) (seedRecord sd a)) m,
        P kv.2 := by
  intro l
  induction l with
  | nil => intro m hm; exact hm
  | cons a l ih =>
    intro m hm
    exact ih _ (mapSet_forall P m _ _ hm (hseed a))

/-- Pointwise property of the map after the Salesforce seeding pass. -/
theorem sfdcSeed_forall (P : AccountEngagement → Prop) (sd : SfdcData)
    (hseed : ∀ a, P (seedRecord sd a)) : ∀ kv ∈ sfdcSeed sd, P kv.2 :=
  seedFold_forall P sd hseed sd.accounts []
    (fun kv hkv => absurd hkv (List.not_mem_nil kv))

/-- The domain-union step preserves a pointwise property that is stable
under appending a domain and satisfied by fresh HubSpot records. -/
theorem hsDomainsUpd_forall (P : AccountEngagement → Prop)
    (hnew : ∀ c, P (newHsAccount c))
    (hdom : ∀ acc d, P acc → P { acc with domains := acc.domains ++ [d] })
    (m : List (List Char × AccountEngagement)) (key : List Char) (c : HsCompany)
    (hm : ∀ kv ∈ m, P kv.2) : ∀ kv ∈ hsDomainsUpd m key c, P kv.2 := by
  unfold hsDomainsUpd
  cases hget : mapGet m key with
  | some acc =>
    dsimp only
    by_cases hc : (!c.domain.isEmpty && !acc.domains.contains c.domain) = true
    · rw [if_pos hc]
      exact mapSet_forall P m key _ hm (hdom acc c.domain (mapGet_forall P hm hget))
    · rw [if_neg hc]
      exact hm
  | none => exact mapSet_forall P m key _ hm (hnew c)

/-- The contact-count step preserves a pointwise property that is stable
under setting `hubspot_contacts` and recomputing `total_contacts`. -/
theorem hsContactsUpd_forall (P : AccountEngagement → Prop)
    (hcnt : ∀ acc (n : Int), P acc →
      P { acc with hubspot_contacts := n, total_contacts := acc.sfdc_contacts + n })
    (m1 : List (List Char × AccountEngagement)) (key : List Char) (hs : Int)
    (hm : ∀ kv ∈ m1, P kv.2) : ∀ kv ∈ hsContactsUpd m1 key hs, P kv.2 := by
  unfold hsContactsUpd
  cases hget : mapGet m1 key with
  | some acc => exact mapSet_forall P m1 key _ hm (hcnt acc hs (mapGet_forall P hm hget))
  | none => exact hm

/-- Pointwise preservation across the whole HubSpot fold. -/
theorem hubspotFold_forall (P : AccountEngagement → Prop) (hd : HubspotData)
    (hnew : ∀ c, P (newHsAccount c))
    (hdom : ∀ acc d, P acc → P { acc with domains := acc.domains ++ [d] })
    (hcnt : ∀ acc (n : Int), P acc →
      P { acc with hubspot_contacts := n, total_contacts := acc.sfdc_contacts + n }) :
    ∀ (cs : List HsCompany) (m : List (List Char × AccountEngagement)),
      (∀ kv ∈ m, P kv.2) → ∀ kv ∈ cs.foldl (hsStep hd) m, P kv.2 := by
  intro cs
  induction cs with
  | nil => intro m hm; exact hm
  | cons c cs ih =>
    intro m hm
    exact ih _ (hsContactsUpd_forall P hcnt _ _ _
      (hsDomainsUpd_forall P hnew hdom m _ c hm))

/-- Pointwise preservation across an in-place rewrite of all values. -/
theorem mapValues_forall (P : AccountEngagement → Prop)
    (g : AccountEngagement → AccountEngagement) (hg : ∀ acc, P acc → P (g acc))
    (m : List (List Char × AccountEngagement)) (hm : ∀ kv ∈ m, P kv.2) :
    ∀ kv ∈ mapValues g m, P kv.2 := by
  intro kv hkv
  simp only [mapValues, List.mem_map] at hkv
  obtain ⟨kv0, hkv0, rfl⟩ := hkv
  exact hg _ (hm kv0 hkv0)

/-- Pointwise preservation from the seeded map through all five merge
passes to the final account list. -/
theorem merge_forall (P : AccountEngagement → Prop) (sd : SfdcData)
    (hd : HubspotData) (ld : LinkedinData) (fd : FactorsData)
    (hseed : ∀ a, P (seedRecord sd a))
    (hnew : ∀ c, P (newHsAccount c))
    (hdom : ∀ acc d, P acc → P { acc with domains := acc.domains ++ [d] })
    (hcnt : ∀ acc (n : Int), P acc →
      P { acc with hubspot_contacts := n, total_contacts := acc.sfdc_contacts + n })
    (hsubs : ∀ acc, P acc → P (applySubs (submissionsByDomain hd.form_submissions) acc))
    (hsess : ∀ acc, P acc → P (applySessions fd.sessions acc))
    (hlink : ∀ acc, P acc → P { acc with linkedin_total_impressions :=
        acc.linkedin_organic_impressions + acc.linkedin_ad_impressions }) :
    ∀ a ∈ mergeAccountData sd hd ld fd, P a := by
  have h1 : ∀ kv ∈ hubspotFold hd (sfdcSeed sd), P kv.2 :=
    hubspotFold_forall P hd hnew hdom hcnt hd.companies _ (sfdcSeed_forall P sd hseed)
  have h2 := mapValues_forall P _ hsubs _ h1
  have h3 := mapValues_forall P _ hsess _ h2
  have h4 : ∀ kv ∈ linkedinFold ld
      (mapValues (applySessions fd.sessions)
        (mapValues (applySubs (submissionsByDomain hd.form_submissions))
          (hubspotFold hd (sfdcSeed sd)))), P kv.2 :=
    mapValues_forall P _ hlink _ h3
  intro a ha
  unfold mergeAccountData at ha
  rw [List.mem_map] at ha
  obtain ⟨kv, hkv, rfl⟩ := ha
  exact h4 kv hkv

/-- C1: for every canonical account in the list produced by an
aggregation run, `total_contacts` equals `sfdc_contacts +
hubspot_contacts`; the equality holds after the Salesforce seeding pass
and is re-established by the HubSpot fold whenever the HubSpot contact
count is set, for any input datasets. -/
theorem total_contacts_invariant (sd : SfdcData) (hd : HubspotData)
    (ld : LinkedinData) (fd : FactorsData) :
    (∀ kv ∈ sfdcSeed sd, contactsTotalInv kv.2)
    ∧ (∀ kv ∈ hubspotFold hd (sfdcSeed sd), contactsTotalInv kv.2)
    ∧ ∀ a ∈ mergeAccountData sd hd ld fd, contactsTotalInv a := by
  have hseed : ∀ a, contactsTotalInv (seedRecord sd a) := by
    intro a
    simp [contactsTotalInv, seedRecord]
  have hnew : ∀ c, contactsTotalInv (newHsAccount c) := by
    intro c
    simp [contactsTotalInv, newHsAccount]
  have hdom : ∀ acc d, contactsTotalInv acc →
      contactsTotalInv { acc with domains := acc.domains ++ [d] } :=
    fun _ _ h => h
  have hcnt : ∀ acc (n : Int), contactsTotalInv acc →
      contactsTotalInv { acc with hubspot_contacts := n,
                                  total_contacts := acc.sfdc_contacts + n } :=
    fun _ _ _ => rfl
  have hsubs : ∀ acc, contactsTotalInv acc →
      contactsTotalInv (applySubs (submissionsByDomain hd.form_submissions) acc) :=
    fun _ h => h
  have hsess : ∀ acc, contactsTotalInv acc →
      contactsTotalInv (applySessions fd.sessions acc) := by
    intro acc h
    unfold applySessions
    cases acc.domains.findSome? (fun d => mapGet fd.sessions d) <;> exact h
  have hlink : ∀ acc, contactsTotalInv acc →
      contactsTotalInv { acc with linkedin_total_impressions :=
        acc.linkedin_organic_impressions + acc.linkedin_ad_impressions } :=
    fun _ h => h
  exact ⟨sfdcSeed_forall _ sd hseed,
    hubspotFold_forall _ hd hnew hdom hcnt hd.companies _ (sfdcSeed_forall _ sd hseed),
    merge_forall _ sd hd ld fd hseed hnew hdom hcnt hsubs hsess hlink⟩

/-- Witness for C1: the invariant evaluated on the account produced by a
concrete aggregation run over the sample datasets. -/
theorem total_contacts_invariant_witness :
    contactsTotalInv ((mergeAccountData sd1 hs1 ld1 fd1).headD acc0) :=
  (total_contacts_invariant sd1 hs1 ld1 fd1).2.2
    ((mergeAccountData sd1 hs1 ld1 fd1).headD acc0) (by decide)

/-- C4: LinkedIn data is never distributed to accounts — for every input,
every canonical account keeps `linkedin_organic_impressions = 0` and
`linkedin_ad_impressions = 0`, and `linkedin_total_impressions` is
recomputed as their sum, hence is also zero. -/
theorem linkedin_never_distributed (sd : SfdcData) (hd : HubspotData)
    (ld : LinkedinData) (fd : FactorsData) :
    ∀ a ∈ mergeAccountData sd hd ld fd,
      a.linkedin_organic_impressions = 0 ∧ a.linkedin_ad_impressions = 0
      ∧ a.linkedin_total_impressions
          = a.linkedin_organic_impressions + a.linkedin_ad_impressions
      ∧ a.linkedin_total_impressions = 0 := by
  intro a ha
  have h := merge_forall
    (fun a => a.linkedin_organic_impressions = 0 ∧ a.linkedin_ad_impressions = 0
      ∧ a.linkedin_total_impressions
          = a.linkedin_organic_impressions + a.linkedin_ad_impressions)
    sd hd ld fd
    (fun _ => ⟨rfl, rfl, rfl⟩)
    (fun _ => ⟨rfl, rfl, rfl⟩)
    (fun _ _ h => h)
    (fun _ _ h => h)
    (fun _ h => h)
    (by
      intro acc h
      unfold applySessions
      cases acc.domains.findSome? (fun d => mapGet fd.sessions d) <;> exact h)
    (fun _ h => ⟨h.1, h.2.1, rfl⟩)
    a ha
  exact ⟨h.1, h.2.1, h.2.2, by rw [h.2.2, h.1, h.2.1]; exact zero_add 0⟩

/-- Witness for C4: evaluated on a concrete run whose LinkedIn input has
non-zero org-level impressions. -/
theorem linkedin_never_distributed_witness :
    ((mergeAccountData sd1 hs1 ld1 fd1).headD acc0).linkedin_organic_impressions = 0
    ∧ ((mergeAccountData sd1 hs1 ld1 fd1).headD acc0).linkedin_ad_impressions = 0
    ∧ ((mergeAccountData sd1 hs1 ld1 fd1).headD acc0).linkedin_total_impressions
        = ((mergeAccountData sd1 hs1 ld1 fd1).headD acc0).linkedin_organic_impressions
          + ((mergeAccountData sd1 hs1 ld1 fd1).headD acc0).linkedin_ad_impressions
    ∧ ((mergeAccountData sd1 hs1 ld1 fd1).headD acc0).linkedin_total_impressions = 0 :=
  linkedin_never_distributed sd1 hs1 ld1 fd1
    ((mergeAccountData sd1 hs1 ld1 fd1).headD acc0) (by decide)

/-- C10: the derived field `current_opportunities` always equals
`open_opportunities + closed_won + closed_lost`: it is set that way at
Salesforce seeding, the HubSpot fold creates records with all four fields
zero, and no later pass modifies any of the four fields. -/
theorem current_opportunities_invariant (sd : SfdcData) (hd : HubspotData)
    (ld : LinkedinData) (fd : FactorsData) :
    (∀ a, currentOppsInv (seedRecord sd a))
    ∧ (∀ c, (newHsAccount c).current_opportunities = 0
        ∧ (newHsAccount c).open_opportunities = 0
        ∧ (newHsAccount c).closed_won = 0
        ∧ (newHsAccount c).closed_lost = 0)
    ∧ ∀ a ∈ mergeAccountData sd hd ld fd, currentOppsInv a := by
  refine ⟨fun _ => rfl, fun _ => ⟨rfl, rfl, rfl, rfl⟩, ?_⟩
  exact merge_forall currentOppsInv sd hd ld fd
    (fun _ => rfl)
    (fun _ => rfl)
    (fun _ _ h => h)
    (fun _ _ h => h)
    (fun _ h => h)
    (by
      intro acc h
      unfold applySessions
      cases acc.domains.findSome? (fun d => mapGet fd.sessions d) <;> exact h)
    (fun _ h => h)

/-- Witness for C10: evaluated on the account produced by a concrete
aggregation run with non-zero opportunity counts. -/
theorem current_opportunities_invariant_witness :
    currentOppsInv ((mergeAccountData sd1 hs1 ld1 fd1).headD acc0) :=
  (current_opportunities_invariant sd1 hs1 ld1 fd1).2.2
    ((mergeAccountData sd1 hs1 ld1 fd1).headD acc0) (by decide)

/-- C2: provider-boundary failure isolation — for every combination of
failing providers, the aggregation behaves exactly as if each failed
provider had returned its documented empty default, still runs the merge
on the remaining data, and produces an `AccountList`; and the defaults
substituted for failures are precisely the documented empty
lists/mappings. -/
theorem provider_failure_isolated (now : Int) (s : Except Unit SfdcData)
    (h : Except Unit HubspotData) (l : Except Unit LinkedinData)
    (f : Except Unit FactorsData) :
    aggregateCompute now s h l f
      = aggregateCompute now (Except.ok (sfdcOrDefault s))
          (Except.ok (hubspotOrDefault h)) (Except.ok (linkedinOrDefault l))
          (Except.ok (factorsOrDefault f))
    ∧ (aggregateCompute now s h l f).accounts
        = mergeAccountData (sfdcOrDefault s) (hubspotOrDefault h)
            (linkedinOrDefault l) (factorsOrDefault f)
    ∧ sfdcOrDefault (Except.error ()) = emptySfdcData
    ∧ hubspotOrDefault (Except.error ()) = emptyHubspotData
    ∧ linkedinOrDefault (Except.error ()) = emptyLinkedinData
    ∧ factorsOrDefault (Except.error ()) = emptyFactorsData :=
  ⟨rfl, rfl, rfl, rfl, rfl, rfl⟩

/-- C5: cache behaviour of `aggregate_account_data` — without
`force_refresh`, a cached entry whose age satisfies `now - cachedAt < ttl`
is returned as-is with no provider fetch and no state change; with
`force_refresh` the call always recomputes, reports a fetch, and
overwrites the cache; and the constructor's default TTL is 5 minutes. -/
theorem cache_behaviour (st : AggState) (now : Int) (s : Except Unit SfdcData)
    (h : Except Unit HubspotData) (l : Except Unit LinkedinData)
    (f : Except Unit FactorsData) :
    (∀ c t, st.cache = some c → st.cache_timestamp = some t →
      now - t < st.cache_ttl →
      aggregateStep st false now s h l f = (c, st, false))
    ∧ aggregateStep st true now s h l f
        = (aggregateCompute now s h l f,
           { st with cache := some (aggregateCompute now s h l f),
                     cache_timestamp := some now }, true)
    ∧ initAggState.cache_ttl = 5 := by
  refine ⟨?_, ?_, rfl⟩
  · intro c t hc ht hlt
    unfold aggregateStep
    rw [hc]
    have hvalid : isCacheValid st now = true := by
      unfold isCacheValid
      rw [ht]
      exact decide_eq_true hlt
    rw [hvalid]
    rfl
  · unfold aggregateStep
    cases st.cache <;> rfl

/-- Witness for C5 at a concrete cached state and time inside the TTL
window. -/
theorem cache_behaviour_witness :
    aggregateStep
      { cache := some { accounts := [acc0], total_count := 1, last_synced := some 0 },
        cache_timestamp := some 0, cache_ttl := 5 } false 3
      (Except.ok sd1) (Except.ok hs1) (Except.ok ld1) (Except.ok fd1)
    = ({ accounts := [acc0], total_count := 1, last_synced := some 0 },
       { cache := some { accounts := [acc0], total_count := 1, last_synced := some 0 },
         cache_timestamp := some 0, cache_ttl := 5 }, false)
    ∧ aggregateStep
        { cache := some { accounts := [acc0], total_count := 1, last_synced := some 0 },
          cache_timestamp := some 0, cache_ttl := 5 } true 3
        (Except.ok sd1) (Except.ok hs1) (Except.ok ld1) (Except.ok fd1)
      = (aggregateCompute 3 (Except.ok sd1) (Except.ok hs1) (Except.ok ld1) (Except.ok fd1),
         { cache := some (aggregateCompute 3 (Except.ok sd1) (Except.ok hs1)
             (Except.ok ld1) (Except.ok fd1)),
           cache_timestamp := some 3, cache_ttl := 5 }, true) :=
  ⟨(cache_behaviour _ 3 (Except.ok sd1) (Except.ok hs1) (Except.ok ld1)
      (Except.ok fd1)).1 _ 0 rfl rfl (by decide),
   (cache_behaviour _ 3 (Except.ok sd1) (Except.ok hs1) (Except.ok ld1)
      (Except.ok fd1)).2.1⟩

/-- C9: detail-by-name lookup — when some aggregated account's name
matches the requested name case-insensitively the endpoint returns such a
matching account, when none matches it returns the client-visible 404
signal, and in both cases the aggregated state is exactly what the
aggregation call itself produced (the lookup changes nothing). -/
theorem detail_lookup (st : AggState) (now : Int) (s : Except Unit SfdcData)
    (h : Except Unit HubspotData) (l : Except Unit LinkedinData)
    (f : Except Unit FactorsData) (name : List Char) :
    ((∃ a ∈ (aggregateStep st false now s h l f).1.accounts,
        lowerL a.account_name = lowerL name) →
      ∃ a, (getAccountDetail st now s h l f name).1 = Except.ok a
        ∧ lowerL a.account_name = lowerL name
        ∧ a ∈ (aggregateStep st false now s h l f).1.accounts)
    ∧ ((∀ a ∈ (aggregateStep st false now s h l f).1.accounts,
        lowerL a.account_name ≠ lowerL name) →
      (getAccountDetail st now s h l f name).1 = Except.error 404)
    ∧ (getAccountDetail st now s h l f name).2
        = (aggregateStep st false now s h l f).2.1 := by
  have hg : getAccountDetail st now s h l f name
      = match (aggregateStep st false now s h l f).1.accounts.find?
          (fun a => lowerL a.account_name == lowerL name) with
        | some a => (Except.ok a, (aggregateStep st false now s h l f).2.1)
        | none => (Except.error 404, (aggregateStep st false now s h l f).2.1) := rfl
  rw [hg]
  cases hfind : (aggregateStep st false now s h l f).1.accounts.find?
      (fun a => lowerL a.account_name == lowerL name) with
  | some a =>
    have hp := List.find?_some hfind
    have hbeq : (lowerL a.account_name == lowerL name) = true := hp
    refine ⟨fun _ => ⟨a, rfl, eq_of_beq hbeq, List.mem_of_find?_eq_some hfind⟩, ?_, rfl⟩
    intro hall
    exact absurd (eq_of_beq hbeq) (hall a (List.mem_of_find?_eq_some hfind))
  | none =>
    refine ⟨?_, fun _ => rfl, rfl⟩
    intro hex
    obtain ⟨a, ha, heq⟩ := hex
    exact absurd (beq_iff_eq.mpr heq) (List.find?_eq_none.mp hfind a ha)

/-- Witness for C9: a concrete run where the request `'ACME'` matches the
merged account named `'Acme'`. -/
theorem detail_lookup_witness :
    ∃ a, (getAccountDetail initAggState 0 (Except.ok sd1) (Except.ok hs1)
        (Except.ok ld1) (Except.ok fd1) "ACME".toList).1 = Except.ok a
      ∧ lowerL a.account_name = lowerL "ACME".toList
      ∧ a ∈ (aggregateStep initAggState false 0 (Except.ok sd1) (Except.ok hs1)
          (Except.ok ld1) (Except.ok fd1)).1.accounts :=
  (detail_lookup initAggState 0 (Except.ok sd1) (Except.ok hs1) (Except.ok ld1)
      (Except.ok fd1) "ACME".toList).1
    ⟨(aggregateStep initAggState false 0 (Except.ok sd1) (Except.ok hs1)
        (Except.ok ld1) (Except.ok fd1)).1.accounts.headD acc0,
      by decide, by decide⟩

/-- C6: pagination of the query engine — for the filtered-and-sorted
list, 1-indexed `page` and `page_size` produce exactly the slice from
index `(page-1)*page_size` (inclusive) to `page*page_size` (exclusive),
and a page beyond the end of the list yields the empty list (no error is
possible: slicing is total). -/
theorem pagination_slice (accounts : List AccountEngagement) (f : AccountFilter)
    (_hpage : 1 ≤ f.page) :
    filter_accounts accounts f
      = ((sortPass f (filterPass f accounts)).drop
          ((f.page - 1) * f.page_size)).take f.page_size
    ∧ ((sortPass f (filterPass f accounts)).length ≤ (f.page - 1) * f.page_size →
        filter_accounts accounts f = []) := by
  have hslice : filter_accounts accounts f
      = ((sortPass f (filterPass f accounts)).drop
          ((f.page - 1) * f.page_size)).take f.page_size := by
    unfold filter_accounts pySlice
    rw [List.drop_take]
    congr 1
    omega
  refine ⟨hslice, fun hlen => ?_⟩
  rw [hslice, List.drop_eq_nil_iff.mpr hlen, List.take_nil]

/-- Witness for C6: page 2 of size 10 over a one-element list is past the
end and comes back empty. -/
theorem pagination_slice_witness :
    (filter_accounts [acc0] fW
      = ((sortPass fW (filterPass fW [acc0])).drop
          ((fW.page - 1) * fW.page_size)).take fW.page_size)
    ∧ filter_accounts [acc0] fW = [] :=
  ⟨(pagination_slice [acc0] fW (by decide)).1,
   (pagination_slice [acc0] fW (by decide)).2 (by decide)⟩

/-- C7: the `min_pipeline` and `industries` filter predicates are
independent and AND-combined, so applying them in either order yields the
same list (and hence the same set) of accounts. -/
theorem filters_commute (l : List AccountEngagement) (m : Int)
    (inds : List (List Char)) :
    (l.filter (minPipelineP m)).filter (industriesP inds)
      = (l.filter (industriesP inds)).filter (minPipelineP m) :=
  List.filter_comm (industriesP inds) (minPipelineP m) l

/-- Stable insertion is a permutation: it only relocates the inserted
element. -/
theorem insertS_perm {α : Type} (le : α → α → Bool) (x : α) :
    ∀ l : List α, (insertS le x l).Perm (x :: l) := by
  intro l
  induction l with
  | nil => exact List.Perm.refl _
  | cons y ys ih =>
    unfold insertS
    by_cases h : le y x = true
    · rw [if_pos h]
      exact (List.Perm.cons y ih).trans (List.Perm.swap x y ys)
    · rw [if_neg h]

/-- The insertion-sort fold permutes the accumulator and the input. -/
theorem pySortedAux_perm {α : Type} (le : α → α → Bool) :
    ∀ (l acc : List α),
      (List.foldl (fun acc x => insertS le x acc) acc l).Perm (acc ++ l) := by
  intro l
  induction l with
  | nil => intro acc; simp
  | cons x xs ih =>
    intro acc
    have h1 := ih (insertS le x acc)
    have hx : (insertS le x acc ++ xs).Perm (acc ++ x :: xs) :=
      ((insertS_perm le x acc).append_right xs).trans List.perm_middle.symm
    exact h1.trans hx

/-- The modelled Python sort is a permutation of its input. -/
theorem pySorted_perm {α : Type} (le : α → α → Bool) (l : List α) :
    (pySorted le l).Perm l := by
  have h := pySortedAux_perm le l []
  simpa [pySorted] using h

/-- Stable insertion preserves sortedness for a transitive, total
comparator. -/
theorem insertS_pairwise {α : Type} (le : α → α → Bool)
    (htrans : ∀ a b c, le a b = true → le b c = true → le a c = true)
    (htotal : ∀ a b, le a b = true ∨ le b a = true) (x : α) :
    ∀ l : List α, l.Pairwise (fun a b => le a b = true) →
      (insertS le x l).Pairwise (fun a b => le a b = true) := by
  intro l
  induction l with
  | nil =>
    intro _
    exact List.pairwise_singleton _ _
  | cons y ys ih =>
    intro hp
    rw [List.pairwise_cons] at hp
    obtain ⟨hy, hys⟩ := hp
    unfold insertS
    by_cases h : le y x = true
    · rw [if_pos h]
      rw [List.pairwise_cons]
      refine ⟨?_, ih hys⟩
      intro z hz
      rcases List.mem_cons.mp ((insertS_perm le x ys).mem_iff.mp hz) with hzx | hzys
      · rw [hzx]; exact h
      · exact hy z hzys
    · rw [if_neg h]
      have hxy : le x y = true := (htotal x y).resolve_right (fun hc => h hc)
      rw [List.pairwise_cons]
      refine ⟨?_, ?_⟩
      · intro z hz
        rcases List.mem_cons.mp hz with hzy | hzys
        · rw [hzy]; exact hxy
        · exact htrans x y z hxy (hy z hzys)
      · rw [List.pairwise_cons]
        exact ⟨hy, hys⟩

/-- The modelled Python sort is sorted with respect to a transitive,
total comparator. -/
theorem pySorted_pairwise {α : Type} (le : α → α → Bool)
    (htrans : ∀ a b c, le a b = true → le b c = true → le a c = true)
    (htotal : ∀ a b, le a b = true ∨ le b a = true) (l : List α) :
    (pySorted le l).Pairwise (fun a b => le a b = true) := by
  have haux : ∀ (l acc : List α), acc.Pairwise (fun a b => le a b = true) →
      (List.foldl (fun acc x => insertS le x acc) acc l).Pairwise
        (fun a b => le a b = true) := by
    intro l
    induction l with
    | nil => intro acc hacc; exact hacc
    | cons x xs ih =>
      intro acc hacc
      exact ih _ (insertS_pairwise le htrans htotal x acc hacc)
  exact haux l [] List.Pairwise.nil

/-- Every branch of the sort-key comparator is a `≤` on a linear order,
so the comparator is transitive. -/
theorem sortLe_trans (sb : List Char) : ∀ a b c,
    sortLe sb a b = true → sortLe sb b c = true → sortLe sb a c = true := by
  intro a b c
  unfold sortLe
  split_ifs <;>
    (intro h1 h2
     simp only [decide_eq_true_eq] at h1 h2 ⊢
     exact le_trans h1 h2)

/-- Every branch of the sort-key comparator is a `≤` on a linear order,
so the comparator is total. -/
theorem sortLe_total (sb : List Char) : ∀ a b,
    sortLe sb a b = true ∨ sortLe sb b a = true := by
  intro a b
  unfold sortLe
  split_ifs <;>
    (simp only [decide_eq_true_eq]
     exact le_total _ _)

/-- A sort key outside the known set falls through every branch of the
comparator to the `pipeline_value` default. -/
theorem sortLe_unknown {sb : List Char}
    (h : sb ∉ [pvKey, tcKey, wsKey, fsKey, anKey, liKey]) :
    sortLe sb = sortLe pvKey := by
  simp only [List.mem_cons, List.not_mem_nil, or_false, not_or] at h
  obtain ⟨h1, h2, h3, h4, h5, h6⟩ := h
  funext a b
  unfold sortLe
  rw [if_neg h1, if_neg h2, if_neg h3, if_neg h4, if_neg h5, if_neg h6, if_pos rfl]

/-- C8: the sort key is drawn from the fixed six-name set (with
`account_name` compared case-insensitively), any other `sort_by` value
sorts by `pipeline_value`, ascending order sorts by the comparator, and
`sort_order = 'desc'` sorts by the reversed comparator — the same
multiset of accounts arranged in the reverse of the ascending order. -/
theorem sort_behaviour (accounts : List AccountEngagement) (f : AccountFilter) :
    (f.sort_by ∉ [pvKey, tcKey, wsKey, fsKey, anKey, liKey] →
      filter_accounts accounts f
        = filter_accounts accounts { f with sort_by := pvKey })
    ∧ (∀ a b, sortLe anKey a b
        = decide (lowerL a.account_name ≤ lowerL b.account_name))
    ∧ (f.sort_order ≠ descKey →
        sortPass f (filterPass f accounts)
          = pySorted (sortLe f.sort_by) (filterPass f accounts)
        ∧ (sortPass f (filterPass f accounts)).Pairwise
            (fun a b => sortLe f.sort_by a b = true))
    ∧ (f.sort_order = descKey →
        (sortPass f (filterPass f accounts)).Perm
          (pySorted (sortLe f.sort_by) (filterPass f accounts))
        ∧ (sortPass f (filterPass f accounts)).Pairwise
            (fun a b => sortLe f.sort_by b a = true)) := by
  refine ⟨?_, ?_, ?_, ?_⟩
  · intro h
    unfold filter_accounts sortPass
    rw [sortLe_unknown h]
    rfl
  · intro a b
    unfold sortLe
    rw [if_neg (by decide), if_neg (by decide), if_neg (by decide),
      if_neg (by decide), if_pos rfl]
  · intro h
    unfold sortPass
    rw [if_neg h]
    exact ⟨rfl,
      pySorted_pairwise _ (sortLe_trans f.sort_by) (sortLe_total f.sort_by) _⟩
  · intro h
    unfold sortPass
    rw [if_pos h]
    refine ⟨(pySorted_perm _ _).trans (pySorted_perm _ _).symm, ?_⟩
    exact pySorted_pairwise (fun a b => sortLe f.sort_by b a)
      (fun a b c h1 h2 => sortLe_trans f.sort_by c b a h2 h1)
      (fun a b => sortLe_total f.sort_by b a)
      (filterPass f accounts)

/-- Witness for C8 at a concrete unknown sort key (`'bogus'`) with
descending order. -/
theorem sort_behaviour_witness :
    (filter_accounts [acc0] fA = filter_accounts [acc0] { fA with sort_by := pvKey })
    ∧ ((sortPass fA (filterPass fA [acc0])).Perm
        (pySorted (sortLe fA.sort_by) (filterPass fA [acc0]))
      ∧ (sortPass fA (filterPass fA [acc0])).Pairwise
          (fun a b => sortLe fA.sort_by b a = true)) :=
  ⟨(sort_behaviour [acc0] fA).1 (by decide),
   (sort_behaviour [acc0] fA).2.2.2 (by decide)⟩

/-- Deleting a pattern that occurs nowhere in the string is the
identity. -/
theorem rep_of_not_occurs {pat s : List Char} (h : occursB pat s = false) :
    repAux pat s 0 = s := by
  induction s with
  | nil => rfl
  | cons c rest ih =>
    simp only [occursB, Bool.or_eq_false_iff] at h
    simp [repAux, h.1, ih h.2]

/-- While skipping over a just-deleted occurrence, `repAux` consumes the
skipped characters verbatim. -/
theorem repAux_skip (pat t s : List Char) :
    repAux pat (t ++ s) t.length = repAux pat s 0 := by
  induction t with
  | nil => rfl
  | cons c t ih => simpa [repAux] using ih

/-- A list is a leading segment of itself followed by anything. -/
theorem isPre_append_self (t s : List Char) : isPre t (t ++ s) = true := by
  induction t with
  | nil => rfl
  | cons c t ih => simp [isPre, ih]

/-- Deleting a pattern from a string that starts with it removes that
leading occurrence. -/
theorem rep_strip (pat s : List Char) (h : pat ≠ []) :
    repAux pat (pat ++ s) 0 = repAux pat s 0 := by
  match pat, h with
  | p :: ps, _ =>
    have h1 : isPre (p :: ps) ((p :: ps) ++ s) = true := isPre_append_self _ _
    simp only [List.cons_append, repAux, isPre] at h1 ⊢
    rw [if_pos (by simp_all [List.isEmpty])]
    simpa using repAux_skip (p :: ps) ps s

/-- A leading occurrence is an occurrence. -/
theorem isPre_occursB {pat s : List Char} (h : isPre pat s = true) :
    occursB pat s = true := by
  cases s with
  | nil =>
    cases pat with
    | nil => rfl
    | cons a as => exact absurd h (by simp [isPre])
  | cons c rest => simp [occursB, h]

/-- Stripping a pattern that occurs nowhere is the identity. -/
theorem stripPre_of_not_occurs {pat s : List Char} (h : occursB pat s = false) :
    stripPre pat s = s := by
  unfold stripPre
  rw [if_neg]
  intro hc
  have ht := isPre_occursB hc
  rw [h] at ht
  exact Bool.noConfusion ht

/-- Stripping a pattern from a string that starts with it leaves the
remainder. -/
theorem stripPre_strip (pat r : List Char) : stripPre pat (pat ++ r) = r := by
  unfold stripPre
  rw [if_pos (isPre_append_self pat r), List.drop_left]

/-- Scanning for `'http://'` walks over a leading `'https://'` without
matching (the fifth characters differ, and no later start inside the
block matches either). -/
theorem stepHttpOverHttps (r : List Char) :
    repAux httpL (httpsL ++ r) 0 = httpsL ++ repAux httpL r 0 := by
  simp [repAux, isPre, httpL, httpsL]

/-- Scanning for `'http://'` walks over a leading `'www.'` without
matching. -/
theorem stepHttpOverWww (r : List Char) :
    repAux httpL (wwwL ++ r) 0 = wwwL ++ repAux httpL r 0 := by
  simp [repAux, isPre, httpL, wwwL]

/-- Scanning for `'https://'` walks over a leading `'www.'` without
matching. -/
theorem stepHttpsOverWww (r : List Char) :
    repAux httpsL (wwwL ++ r) 0 = wwwL ++ repAux httpsL r 0 := by
  simp [repAux, isPre, httpsL, wwwL]

/-- `'http://'` is not a leading segment of `'https://' ++ r`. -/
theorem stripHttpElseHttps (r : List Char) :
    stripPre httpL (httpsL ++ r) = httpsL ++ r := by
  simp [stripPre, isPre, httpL, httpsL]

/-- `'http://'` is not a leading segment of `'www.' ++ r`. -/
theorem stripHttpElseWww (r : List Char) :
    stripPre httpL (wwwL ++ r) = wwwL ++ r := by
  simp [stripPre, isPre, httpL, wwwL]

/-- `'https://'` is not a leading segment of `'www.' ++ r`. -/
theorem stripHttpsElseWww (r : List Char) :
    stripPre httpsL (wwwL ++ r) = wwwL ++ r := by
  simp [stripPre, isPre, httpsL, wwwL]

/-- On well-formed website strings — the three deleted substrings occur
only as the leading prefixes — the code's global deletion agrees with the
specification's stripping of leading prefixes. -/
theorem extract_agree (w : List Char) (hwf : WellFormedSite w) :
    extractDomain w = extractDomainSpec w := by
  obtain ⟨r, hshape, hH, hHs, hW⟩ := hwf
  have e1 : repAux httpL r 0 = r := rep_of_not_occurs hH
  have e2 : repAux httpsL r 0 = r := rep_of_not_occurs hHs
  have e3 : repAux wwwL r 0 = r := rep_of_not_occurs hW
  have s1 : stripPre httpL r = r := stripPre_of_not_occurs hH
  have s2 : stripPre httpsL r = r := stripPre_of_not_occurs hHs
  have s3 : stripPre wwwL r = r := stripPre_of_not_occurs hW
  rcases hshape with rfl | rfl | rfl | rfl | rfl | rfl
  · unfold extractDomain extractDomainSpec pyReplace
    rw [e1, e2, e3, s1, s2, s3]
  · unfold extractDomain extractDomainSpec pyReplace
    rw [rep_strip httpL r (by decide), e1, e2, e3,
      stripPre_strip httpL r, s2, s3]
  · unfold extractDomain extractDomainSpec pyReplace
    rw [stepHttpOverHttps, e1, rep_strip httpsL r (by decide), e2, e3,
      stripHttpElseHttps, stripPre_strip httpsL r, s3]
  · unfold extractDomain extractDomainSpec pyReplace
    rw [stepHttpOverWww, e1, stepHttpsOverWww, e2,
      rep_strip wwwL r (by decide), e3,
      stripHttpElseWww, stripHttpsElseWww, stripPre_strip wwwL r]
  · unfold extractDomain extractDomainSpec pyReplace
    rw [rep_strip httpL (wwwL ++ r) (by decide), stepHttpOverWww, e1,
      stepHttpsOverWww, e2, rep_strip wwwL r (by decide), e3,
      stripPre_strip httpL (wwwL ++ r), stripHttpsElseWww,
      stripPre_strip wwwL r]
  · unfold extractDomain extractDomainSpec pyReplace
    rw [stepHttpOverHttps, stepHttpOverWww, e1,
      rep_strip httpsL (wwwL ++ r) (by decide), stepHttpsOverWww, e2,
      rep_strip wwwL r (by decide), e3,
      stripHttpElseHttps, stripPre_strip httpsL (wwwL ++ r),
      stripPre_strip wwwL r]

/-- Counterexample to C3 as stated: on the non-empty website `'awww.b/c'`
the code's global deletion of `'www.'` yields domain `'ab'`, while
stripping only the leading prefixes and cutting at the first `'/'` yields
`'awww.b'`; the merge places the code's value, not the spec's, in the
account's domains list. -/
theorem domain_extraction_counterexample :
    extractDomain siteCx ≠ extractDomainSpec siteCx
    ∧ siteCx ≠ []
    ∧ (mergeAccountData sdCx emptyHubspotData emptyLinkedinData emptyFactorsData).map
        (fun a => a.domains) = [[extractDomain siteCx]]
    ∧ extractDomain siteCx = "ab".toList
    ∧ extractDomainSpec siteCx = "awww.b".toList := by
  decide

/-- C3 (amended): for every non-empty website string on a CRM account,
the extracted domain is obtained by deleting every occurrence of
`'http://'`, then `'https://'`, then `'www.'` (Python `str.replace`
deletes globally, not only a leading prefix) and then taking the
substring before the first `'/'`; that result is placed, alone, in the
seeded account's domains list; and whenever the three substrings occur
only as the leading prefixes, this coincides with the specification's
strip-leading-prefixes description. -/
theorem domain_extraction_amended (sd : SfdcData) (a : SfdcAccount)
    (hw : a.website ≠ []) :
    (seedRecord sd a).domains = [extractDomain a.website]
    ∧ (WellFormedSite a.website →
        extractDomain a.website = extractDomainSpec a.website) := by
  constructor
  · have hne : a.website.isEmpty = false := by
      cases hweb : a.website with
      | nil => exact absurd hweb hw
      | cons c rest => rfl
    unfold seedRecord
    rw [hne]
    rfl
  · exact extract_agree a.website

/-- Witness for the amended C3 at the well-formed website
`'https://www.acme.com/home'`: the seeded domains list is
`['acme.com']` and the code agrees with the spec's stripping. -/
theorem domain_extraction_amended_witness :
    (seedRecord sdW acW).domains = [extractDomain siteW]
    ∧ extractDomain siteW = extractDomainSpec siteW :=
  ⟨(domain_extraction_amended sdW acW (by decide)).1,
   (domain_extraction_amended sdW acW (by decide)).2
     ⟨"acme.com/home".toList,
      Or.inr (Or.inr (Or.inr (Or.inr (Or.inr rfl)))),
      by decide, by decide, by decide⟩⟩
